import Mathlib

/-!
Verification of the multi-agent revision loop of `2_Revise-Plan-Stable.py`
(repository dazzaji/agento-otel).

The Python script revises the steps of a project plan through a bounded
instruct→revise→review cycle between two LLM backends ("Claude" instructs
and reviews, "Gemini" revises).  The embedding below models each source
function directly:

* `Message`, `RevisionContext`, `Step`, `Plan` mirror the script's data.
* The two backends are modelled by an `Env` holding one reply queue per
  backend: each physical API call consumes one queue element, `some text`
  standing for a successful response and `none` (or an empty queue) for a
  raised exception (network, quota, malformed response).  This makes the
  wrappers total functions while preserving the source's observable
  behaviour: the caller only sees the reply text or `None`.
* Python mutates `context`, `step` and `plan` in place; the embedding
  passes that state explicitly and returns the updated values.
* The `while context.current_iteration <= MAX_ITERATIONS` loop is embedded
  with fuel `max_iterations + 1 - current_iteration`: `current_iteration`
  starts at 1 and both move in lockstep, so the fuel hits 0 exactly when
  the Python condition first fails.  `MAX_ITERATIONS` (3 in the source) is
  kept as an explicit parameter, matching the spec's configuration surface.
-/

namespace Agento

/-- A role-tagged chat message, as the dicts held in `claude_messages` and
`gemini_history`. -/
structure Message where
  role : String
  content : String
deriving Repr, DecidableEq

/-- `RevisionContext` of the source: per-step revision state. -/
structure RevisionContext where
  step_name : String
  original_content : String
  revision_request : String
  claude_messages : List Message
  gemini_history : List Message
  current_iteration : Nat
deriving Repr, DecidableEq

/-- One entry of the plan's `Detailed_Outline`. -/
structure Step where
  name : String
  content : String
deriving Repr, DecidableEq

/-- The plan document (the fields the revision pass reads or writes).
`revision_requests` is the JSON object mapping step names to request text,
modelled as an association list with the dict's unique keys. -/
structure Plan where
  Title : String
  Overall_Summary : String
  Detailed_Outline : List Step
  revision_requests : List (String × String)
deriving Repr, DecidableEq

/-- The two backends' future replies, one queue element per physical API
call (`client.messages.create` for Claude, `chat.send_message` for Gemini).
`some text` is a successful response; `none`, or an exhausted queue, is a
call that raises. -/
structure Env where
  claude_queue : List (Option String)
  gemini_queue : List (Option String)
deriving Repr, DecidableEq

/-- Dict lookup `d[name]` / membership `name in d` on the association list. -/
def lookup_request : List (String × String) → String → Option String
  | [], _ => none
  | (k, v) :: rest, name => if k = name then some v else lookup_request rest name

/-- `_format_revision_history`: one formatted block per model/assistant
message, carrying the enumeration index of the full history. -/
def format_entry : Nat × Message → Option String
  | (i, msg) =>
    if msg.role = "model" then
      some ("Revision " ++ toString (i / 2 + 1) ++ ":\n```\n" ++ msg.content ++ "\n```")
    else if msg.role = "assistant" then
      some ("Instruction " ++ toString (i / 2 + 1) ++ ":\n```\n" ++ msg.content ++ "\n```")
    else none

/-- `_format_revision_history` of the source. -/
def format_revision_history (history : List Message) : String :=
  if history.isEmpty then "No previous revisions"
  else String.intercalate "\n\n" (history.enum.filterMap format_entry)

/-- `get_claude_response`: appends the new user prompt to
`context.claude_messages`, issues the call, and on success appends the
assistant reply; any exception is caught and turned into `None`, leaving
the unanswered user prompt in the history. -/
def get_claude_response (env : Env) (context : RevisionContext)
    (new_prompt : String) : Option String × RevisionContext × Env :=
  let context := { context with
    claude_messages := context.claude_messages ++ [⟨"user", new_prompt⟩] }
  match env.claude_queue with
  | [] => (none, context, env)
  | none :: rest => (none, context, { env with claude_queue := rest })
  | some response_text :: rest =>
      (some response_text,
       { context with claude_messages :=
          context.claude_messages ++ [⟨"assistant", response_text⟩] },
       { env with claude_queue := rest })

/-- `get_gemini_response`: issues the call on a chat session rebuilt from
`context.gemini_history`, and only after a successful response appends the
request/reply pair to the history; any exception is caught and turned into
`None`, leaving the history untouched. -/
def get_gemini_response (env : Env) (context : RevisionContext)
    (new_prompt : String) : Option String × RevisionContext × Env :=
  match env.gemini_queue with
  | [] => (none, context, env)
  | none :: rest => (none, context, { env with gemini_queue := rest })
  | some response_text :: rest =>
      (some response_text,
       { context with gemini_history := context.gemini_history ++
          [⟨"user", new_prompt⟩, ⟨"model", response_text⟩] },
       { env with gemini_queue := rest })

/-- The instruction prompt built at the top of each round (the f-string
`claude_prompt` of the source, whitespace included). -/
def claude_prompt (context : RevisionContext) : String :=
  "\n        Review the following step '" ++ context.step_name ++
  "' considering previous revisions:\n        Original content:\n        ```\n        " ++
  context.original_content ++
  "\n        ```\n        \n        Revision request:\n        ```\n        " ++
  context.revision_request ++
  "\n        ```\n        \n        Previous revisions (if any):\n        " ++
  format_revision_history context.gemini_history ++
  "\n        \n        Provide detailed instructions to Gemini for the next revision.\n        "

/-- The verdict prompt built after each revision (the f-string
`review_prompt` of the source; its history section reads the
`gemini_history` as updated by the round's successful Gemini call). -/
def review_prompt (context : RevisionContext) (revised_content : String) : String :=
  "\n        Review Gemini's latest revision:\n        ```\n        " ++ revised_content ++
  "\n        ```\n        \n        Original revision request:\n        ```\n        " ++
  context.revision_request ++
  "\n        ```\n        \n        Previous revision history:\n        " ++
  format_revision_history context.gemini_history ++
  "\n        \n        Does this revision meet all requirements? Respond with:\n        * YES - if complete and ready for hand-off\n        * NO - if changes needed, with specific feedback\n        "

/-- Contiguous-substring test on character lists: does the second list
contain `pat` as an infix? -/
def contains_sub (pat : List Char) : List Char → Bool
  | [] => pat.isEmpty
  | c :: rest => pat.isPrefixOf (c :: rest) || contains_sub pat rest

/-- Python `str.upper()` on the reply text, as a map over the characters
(written on `String.data` so that it evaluates inside the kernel). -/
def str_upper (s : String) : String :=
  ⟨s.data.map Char.toUpper⟩

/-- The verdict classifier of the source, line 283:
`if "YES" in verdict.upper()`. -/
def accepts_verdict (verdict : String) : Bool :=
  contains_sub "YES".data (str_upper verdict).data

/-- Result of one instruct→revise→review round of the loop body. -/
inductive RoundResult where
  | abort (context : RevisionContext) (env : Env)
  | accept (revised_content : String) (context : RevisionContext) (env : Env)
  | reject (context : RevisionContext) (env : Env)
deriving Repr, DecidableEq

/-- The revision context a `RoundResult` carries. -/
def RoundResult.rctx : RoundResult → RevisionContext
  | .abort c _ => c
  | .accept _ c _ => c
  | .reject c _ => c

/-- The environment a `RoundResult` carries. -/
def RoundResult.renv : RoundResult → Env
  | .abort _ e => e
  | .accept _ _ e => e
  | .reject _ e => e

/-- The body of the `while` loop of `revise_step_with_llms` (lines
217-288): instruct via Claude, revise via Gemini, review via Claude, then
classify the verdict.  A falsy reply (`None` or the empty string — the
source tests `if not ...`) aborts the round. -/
def run_round (env : Env) (context : RevisionContext) : RoundResult :=
  match get_claude_response env context (claude_prompt context) with
  | (none, context, env) => .abort context env
  | (some gemini_prompt, context, env) =>
    if gemini_prompt = "" then .abort context env
    else
      match get_gemini_response env context gemini_prompt with
      | (none, context, env) => .abort context env
      | (some revised_content, context, env) =>
        if revised_content = "" then .abort context env
        else
          match get_claude_response env context (review_prompt context revised_content) with
          | (none, context, env) => .abort context env
          | (some verdict, context, env) =>
            if verdict = "" then .abort context env
            else if accepts_verdict verdict then .accept revised_content context env
            else .reject context env

/-- The terminal state of one step's protocol run: `accepted` and
`exhausted` are the two `return plan, context` sites of the source
(lines 286 and 291), `aborted` the `return None, context` sites. -/
inductive Outcome where
  | accepted
  | exhausted
  | aborted
deriving Repr, DecidableEq

/-- What one invocation of `revise_step_with_llms` returns and leaves
behind: `ok` is whether the Python function returned the plan (`false`
means it returned `None`); `step` is the step object after any in-place
mutation; `outcome` labels which return site produced the result. -/
structure ReviseResult where
  ok : Bool
  step : Step
  context : RevisionContext
  env : Env
  outcome : Outcome
deriving Repr, DecidableEq

/-- The `while context.current_iteration <= MAX_ITERATIONS` loop, run with
fuel `max_iterations + 1 - current_iteration` (both counters move in
lockstep).  Fuel 0 is the loop condition failing: the source falls through
to `return plan, context` with the step untouched (exhaustion).  An
accepted verdict writes the round's revision into `step.content`
(line 284) and returns; an aborted round returns `None`. -/
def revise_loop : Env → Step → RevisionContext → Nat → ReviseResult
  | env, step, context, 0 => ⟨true, step, context, env, .exhausted⟩
  | env, step, context, fuel + 1 =>
    match run_round env context with
    | .abort context env => ⟨false, step, context, env, .aborted⟩
    | .accept revised_content context env =>
        ⟨true, { step with content := revised_content }, context, env, .accepted⟩
    | .reject context env =>
        revise_loop env step
          { context with current_iteration := context.current_iteration + 1 } fuel

/-- The fresh `RevisionContext` built at the top of `revise_step_with_llms`
(lines 208-215): empty histories, iteration counter 1, snapshot of the
step's current content. -/
def init_context (step : Step) (revision_request : String) : RevisionContext :=
  { step_name := step.name
    original_content := step.content
    revision_request := revision_request
    claude_messages := []
    gemini_history := []
    current_iteration := 1 }

/-- `MAX_ITERATIONS` of the source (line 104). -/
def MAX_ITERATIONS : Nat := 3

/-- `revise_step_with_llms`: builds a fresh context and runs the bounded
revision loop on one step. -/
def revise_step_with_llms (max_iterations : Nat) (env : Env) (step : Step)
    (revision_request : String) : ReviseResult :=
  revise_loop env step (init_context step revision_request) max_iterations

/-- What `further_revise_plan`'s loop over the outline produces: `ok`
mirrors whether the Python function returned the plan or `None`; `outline`
is the step list as left in memory (mutated in place by the per-step
protocol), `contexts` the `revision_contexts` mapping in insertion
order. -/
structure OutlineResult where
  ok : Bool
  outline : List Step
  contexts : List (String × RevisionContext)
  env : Env
deriving Repr, DecidableEq

/-- The `for step in plan["Detailed_Outline"]` loop of
`further_revise_plan` (lines 309-334): steps without a pending revision
request are passed over; a requested step runs the protocol, a failed
protocol run returns `None` at once with the contexts gathered so far and
the remaining steps untouched; a successful run records the step's context
and continues. -/
def further_loop (max_iterations : Nat) (requests : List (String × String)) :
    Env → List (String × RevisionContext) → List Step → OutlineResult
  | env, contexts, [] => ⟨true, [], contexts, env⟩
  | env, contexts, step :: rest =>
    match lookup_request requests step.name with
    | none =>
      let r := further_loop max_iterations requests env contexts rest
      { r with outline := step :: r.outline }
    | some revision_request =>
      let r := revise_step_with_llms max_iterations env step revision_request
      if r.ok then
        let r2 := further_loop max_iterations requests r.env
          (contexts ++ [(step.name, r.context)]) rest
        { r2 with outline := r.step :: r2.outline }
      else
        ⟨false, r.step :: rest, contexts, r.env⟩

/-- The batch result: `ok` is whether `further_revise_plan` returned the
plan (`false` means it returned `None`); `plan` is the plan object as left
in memory, earlier in-place step revisions included. -/
structure DriveResult where
  ok : Bool
  plan : Plan
  contexts : List (String × RevisionContext)
  env : Env
deriving Repr, DecidableEq

/-- `further_revise_plan`: runs the revision protocol over every step of
the plan that has a pending revision request. -/
def further_revise_plan (max_iterations : Nat) (env : Env) (plan : Plan) :
    DriveResult :=
  let r := further_loop max_iterations plan.revision_requests env []
    plan.Detailed_Outline
  ⟨r.ok, { plan with Detailed_Outline := r.outline }, r.contexts, r.env⟩

end Agento

namespace Agento

lemma claude_fail_nil (gq : List (Option String)) (ctx : RevisionContext) (p : String) :
    get_claude_response ⟨[], gq⟩ ctx p =
      (none, { ctx with claude_messages := ctx.claude_messages ++ [⟨"user", p⟩] }, ⟨[], gq⟩) := rfl

lemma claude_fail_none (ct gq : List (Option String)) (ctx : RevisionContext) (p : String) :
    get_claude_response ⟨none :: ct, gq⟩ ctx p =
      (none, { ctx with claude_messages := ctx.claude_messages ++ [⟨"user", p⟩] }, ⟨ct, gq⟩) := rfl

lemma claude_success (ct gq : List (Option String)) (s : String) (ctx : RevisionContext) (p : String) :
    get_claude_response ⟨some s :: ct, gq⟩ ctx p =
      (some s,
       { ctx with claude_messages := (ctx.claude_messages ++ [⟨"user", p⟩]) ++ [⟨"assistant", s⟩] },
       ⟨ct, gq⟩) := rfl

lemma gemini_fail_nil (cq : List (Option String)) (ctx : RevisionContext) (p : String) :
    get_gemini_response ⟨cq, []⟩ ctx p = (none, ctx, ⟨cq, []⟩) := rfl

lemma gemini_fail_none (cq gt : List (Option String)) (ctx : RevisionContext) (p : String) :
    get_gemini_response ⟨cq, none :: gt⟩ ctx p = (none, ctx, ⟨cq, gt⟩) := rfl

lemma gemini_success (cq gt : List (Option String)) (s : String) (ctx : RevisionContext) (p : String) :
    get_gemini_response ⟨cq, some s :: gt⟩ ctx p =
      (some s,
       { ctx with gemini_history := ctx.gemini_history ++ [⟨"user", p⟩, ⟨"model", s⟩] },
       ⟨cq, gt⟩) := rfl

/-- Context after one fully successful round. -/
def round_ctx (context : RevisionContext) (p g v : String) : RevisionContext :=
  let c1 : RevisionContext := { context with claude_messages :=
    (context.claude_messages ++ [⟨"user", claude_prompt context⟩]) ++ [⟨"assistant", p⟩] }
  let c2 : RevisionContext := { c1 with gemini_history :=
    c1.gemini_history ++ [⟨"user", p⟩, ⟨"model", g⟩] }
  { c2 with claude_messages :=
    (c2.claude_messages ++ [⟨"user", review_prompt c2 g⟩]) ++ [⟨"assistant", v⟩] }

lemma run_round_success (ct gt : List (Option String)) (p g v : String)
    (context : RevisionContext) (hp : p ≠ "") (hg : g ≠ "") (hv : v ≠ "") :
    run_round ⟨some p :: some v :: ct, some g :: gt⟩ context =
      if accepts_verdict v then .accept g (round_ctx context p g v) ⟨ct, gt⟩
      else .reject (round_ctx context p g v) ⟨ct, gt⟩ := by
  simp [run_round, claude_success, gemini_success, hp, hg, hv, round_ctx]

end Agento

namespace Agento

lemma round_ctx_iter (context : RevisionContext) (p g v : String) :
    (round_ctx context p g v).current_iteration = context.current_iteration := rfl

lemma round_ctx_claude (context : RevisionContext) (p g v : String) :
    context.claude_messages <+: (round_ctx context p g v).claude_messages := by
  simp [round_ctx, List.append_assoc]

lemma round_ctx_gemini (context : RevisionContext) (p g v : String) :
    context.gemini_history <+: (round_ctx context p g v).gemini_history := by
  simp [round_ctx]

lemma run_round_mono (env : Env) (ctx : RevisionContext) :
    ctx.claude_messages <+: (run_round env ctx).rctx.claude_messages ∧
    ctx.gemini_history <+: (run_round env ctx).rctx.gemini_history ∧
    (run_round env ctx).rctx.current_iteration = ctx.current_iteration := by
  rcases env with ⟨cq, gq⟩
  rcases cq with _ | ⟨_ | p, ct⟩
  · simp [run_round, claude_fail_nil, RoundResult.rctx]
  · simp [run_round, claude_fail_none, RoundResult.rctx]
  by_cases hp : p = ""
  · subst hp
    simp [run_round, claude_success, RoundResult.rctx]
  rcases gq with _ | ⟨_ | g, gt⟩
  · simp [run_round, claude_success, gemini_fail_nil, hp, RoundResult.rctx]
  · simp [run_round, claude_success, gemini_fail_none, hp, RoundResult.rctx]
  by_cases hg : g = ""
  · subst hg
    simp [run_round, claude_success, gemini_success, hp, RoundResult.rctx]
  rcases ct with _ | ⟨_ | v, ct2⟩
  · simp [run_round, claude_success, gemini_success, claude_fail_nil, hp, hg,
      RoundResult.rctx, List.append_assoc]
  · simp [run_round, claude_success, gemini_success, claude_fail_none, hp, hg,
      RoundResult.rctx, List.append_assoc]
  by_cases hv : v = ""
  · subst hv
    simp [run_round, claude_success, gemini_success, hp, hg, RoundResult.rctx,
      List.append_assoc]
  rw [run_round_success ct2 gt p g v _ hp hg hv]
  by_cases ha : accepts_verdict v
  · simp [ha, RoundResult.rctx, round_ctx_iter]
    exact ⟨round_ctx_claude _ _ _ _, round_ctx_gemini _ _ _ _⟩
  · simp [ha, RoundResult.rctx, round_ctx_iter]
    exact ⟨round_ctx_claude _ _ _ _, round_ctx_gemini _ _ _ _⟩

end Agento

namespace Agento

lemma run_round_consume (env : Env) (ctx : RevisionContext) :
    ∃ a, a ≤ 2 ∧ ∃ b, b ≤ 1 ∧
      (run_round env ctx).renv.claude_queue = env.claude_queue.drop a ∧
      (run_round env ctx).renv.gemini_queue = env.gemini_queue.drop b := by
  rcases env with ⟨cq, gq⟩
  rcases cq with _ | ⟨_ | p, ct⟩
  · exact ⟨0, by omega, 0, by omega, by simp [run_round, claude_fail_nil, RoundResult.renv],
      by simp [run_round, claude_fail_nil, RoundResult.renv]⟩
  · exact ⟨1, by omega, 0, by omega, by simp [run_round, claude_fail_none, RoundResult.renv],
      by simp [run_round, claude_fail_none, RoundResult.renv]⟩
  by_cases hp : p = ""
  · subst hp
    exact ⟨1, by omega, 0, by omega, by simp [run_round, claude_success, RoundResult.renv],
      by simp [run_round, claude_success, RoundResult.renv]⟩
  rcases gq with _ | ⟨_ | g, gt⟩
  · exact ⟨1, by omega, 0, by omega,
      by simp [run_round, claude_success, gemini_fail_nil, hp, RoundResult.renv],
      by simp [run_round, claude_success, gemini_fail_nil, hp, RoundResult.renv]⟩
  · exact ⟨1, by omega, 1, by omega,
      by simp [run_round, claude_success, gemini_fail_none, hp, RoundResult.renv],
      by simp [run_round, claude_success, gemini_fail_none, hp, RoundResult.renv]⟩
  by_cases hg : g = ""
  · subst hg
    exact ⟨1, by omega, 1, by omega,
      by simp [run_round, claude_success, gemini_success, hp, RoundResult.renv],
      by simp [run_round, claude_success, gemini_success, hp, RoundResult.renv]⟩
  rcases ct with _ | ⟨_ | v, ct2⟩
  · exact ⟨2, by omega, 1, by omega,
      by simp [run_round, claude_success, gemini_success, claude_fail_nil, hp, hg,
        RoundResult.renv],
      by simp [run_round, claude_success, gemini_success, claude_fail_nil, hp, hg,
        RoundResult.renv]⟩
  · exact ⟨2, by omega, 1, by omega,
      by simp [run_round, claude_success, gemini_success, claude_fail_none, hp, hg,
        RoundResult.renv],
      by simp [run_round, claude_success, gemini_success, claude_fail_none, hp, hg,
        RoundResult.renv]⟩
  by_cases hv : v = ""
  · subst hv
    exact ⟨2, by omega, 1, by omega,
      by simp [run_round, claude_success, gemini_success, hp, hg, RoundResult.renv],
      by simp [run_round, claude_success, gemini_success, hp, hg, RoundResult.renv]⟩
  refine ⟨2, by omega, 1, by omega, ?_, ?_⟩ <;>
    rw [run_round_success ct2 gt p g v _ hp hg hv] <;>
    by_cases ha : accepts_verdict v <;>
    simp [ha, RoundResult.renv]

lemma revise_loop_not_accepted (fuel : Nat) :
    ∀ (env : Env) (step : Step) (ctx : RevisionContext),
      ((revise_loop env step ctx fuel).ok = false ↔
        (revise_loop env step ctx fuel).outcome = .aborted) ∧
      ((revise_loop env step ctx fuel).outcome ≠ .accepted →
        (revise_loop env step ctx fuel).step = step) := by
  induction fuel with
  | zero => intro env step ctx; simp [revise_loop]
  | succ n ih =>
    intro env step ctx
    rcases h : run_round env ctx with ⟨c, e⟩ | ⟨g, c, e⟩ | ⟨c, e⟩
    · simp [revise_loop, h]
    · simp [revise_loop, h]
    · simp only [revise_loop, h]
      exact ih e step _

lemma revise_loop_mono (fuel : Nat) :
    ∀ (env : Env) (step : Step) (ctx : RevisionContext),
      ctx.claude_messages <+: (revise_loop env step ctx fuel).context.claude_messages ∧
      ctx.gemini_history <+: (revise_loop env step ctx fuel).context.gemini_history := by
  induction fuel with
  | zero => intro env step ctx; simp [revise_loop]
  | succ n ih =>
    intro env step ctx
    have hm := run_round_mono env ctx
    rcases h : run_round env ctx with ⟨c, e⟩ | ⟨g, c, e⟩ | ⟨c, e⟩ <;> rw [h] at hm
    · simpa [revise_loop, h, RoundResult.rctx] using ⟨hm.1, hm.2.1⟩
    · simpa [revise_loop, h, RoundResult.rctx] using ⟨hm.1, hm.2.1⟩
    · simp only [revise_loop, h]
      have hrec := ih e step { c with current_iteration := c.current_iteration + 1 }
      exact ⟨hm.1.trans hrec.1, (hm.2.1).trans hrec.2⟩

lemma revise_loop_consume (fuel : Nat) :
    ∀ (env : Env) (step : Step) (ctx : RevisionContext),
      ∃ a, a ≤ 2 * fuel ∧ ∃ b, b ≤ fuel ∧
        (revise_loop env step ctx fuel).env.claude_queue = env.claude_queue.drop a ∧
        (revise_loop env step ctx fuel).env.gemini_queue = env.gemini_queue.drop b := by
  induction fuel with
  | zero =>
    intro env step ctx
    refine ⟨0, by omega, 0, by omega, ?_, ?_⟩ <;> simp [revise_loop]
  | succ n ih =>
    intro env step ctx
    obtain ⟨a1, ha1, b1, hb1, hcq, hgq⟩ := run_round_consume env ctx
    rcases h : run_round env ctx with ⟨c, e⟩ | ⟨g, c, e⟩ | ⟨c, e⟩ <;>
      rw [h] at hcq hgq <;> simp only [RoundResult.renv] at hcq hgq
    · refine ⟨a1, by omega, b1, by omega, ?_, ?_⟩ <;>
        simp only [revise_loop, h]
      · exact hcq
      · exact hgq
    · refine ⟨a1, by omega, b1, by omega, ?_, ?_⟩ <;>
        simp only [revise_loop, h]
      · exact hcq
      · exact hgq
    · simp only [revise_loop, h]
      obtain ⟨a2, ha2, b2, hb2, hcq2, hgq2⟩ :=
        ih e step { c with current_iteration := c.current_iteration + 1 }
      refine ⟨a2 + a1, by omega, b2 + b1, by omega, ?_, ?_⟩
      · rw [hcq2, hcq, List.drop_drop, Nat.add_comm]
      · rw [hgq2, hgq, List.drop_drop, Nat.add_comm]

end Agento

namespace Agento

/-- The first `n` elements of a reply queue are successful non-empty
replies (so `n` calls drawn from it all succeed and pass the source's
falsy check). -/
def q_ok_upto : Nat → List (Option String) → Bool
  | 0, _ => true
  | _ + 1, [] => false
  | _ + 1, none :: _ => false
  | n + 1, some s :: rest => !(s == "") && q_ok_upto n rest

/-- Every review reply in a Claude queue is non-accepting: the queue is
consumed alternately instruct/review, so the review replies are the
odd-positioned elements. -/
def reviews_reject : List (Option String) → Bool
  | [] => true
  | [_] => true
  | _ :: some s :: rest => !accepts_verdict s && reviews_reject rest
  | _ :: none :: rest => reviews_reject rest

/-- The first `n` review replies (odd-positioned elements) of a Claude
queue are non-accepting. -/
def rejects_upto : Nat → List (Option String) → Bool
  | 0, _ => true
  | n + 1, _ :: some s :: rest => !accepts_verdict s && rejects_upto n rest
  | _ + 1, _ => true

lemma q_ok_upto_succ {n : Nat} {q : List (Option String)}
    (h : q_ok_upto (n + 1) q = true) :
    ∃ s rest, q = some s :: rest ∧ s ≠ "" ∧ q_ok_upto n rest = true := by
  match q with
  | [] => simp [q_ok_upto] at h
  | none :: rest => simp [q_ok_upto] at h
  | some s :: rest =>
    simp only [q_ok_upto, Bool.and_eq_true, Bool.not_eq_true', beq_eq_false_iff_ne] at h
    exact ⟨s, rest, rfl, h.1, h.2⟩

lemma revise_loop_exhaust (fuel : Nat) :
    ∀ (env : Env) (step : Step) (ctx : RevisionContext),
      q_ok_upto (2 * fuel) env.claude_queue = true →
      q_ok_upto fuel env.gemini_queue = true →
      reviews_reject env.claude_queue = true →
      ∃ ctx', revise_loop env step ctx fuel =
          ⟨true, step, ctx',
           ⟨env.claude_queue.drop (2 * fuel), env.gemini_queue.drop fuel⟩,
           .exhausted⟩ ∧
        ctx'.current_iteration = ctx.current_iteration + fuel := by
  induction fuel with
  | zero =>
    intro env step ctx _ _ _
    exact ⟨ctx, by simp [revise_loop], by omega⟩
  | succ n ih =>
    intro env step ctx hcq hgq hrej
    rcases env with ⟨cq, gq⟩
    dsimp only at hcq hgq hrej ⊢
    have h2 : 2 * (n + 1) = 2 * n + 1 + 1 := by omega
    rw [h2] at hcq
    obtain ⟨p, rest, hq1, hp, hcq1⟩ := q_ok_upto_succ hcq
    obtain ⟨v, ct, hq2, hv, hcq2⟩ := q_ok_upto_succ hcq1
    obtain ⟨g, gt, hq3, hg, hgq1⟩ := q_ok_upto_succ hgq
    subst hq2
    subst hq1
    subst hq3
    simp only [reviews_reject, Bool.and_eq_true, Bool.not_eq_true'] at hrej
    have hrr := run_round_success ct gt p g v ctx hp hg hv
    rw [hrej.1] at hrr
    simp only [Bool.false_eq_true, if_false] at hrr
    rw [show revise_loop ⟨some p :: some v :: ct, some g :: gt⟩ step ctx (n + 1) =
        match run_round ⟨some p :: some v :: ct, some g :: gt⟩ ctx with
        | .abort context env => ⟨false, step, context, env, .aborted⟩
        | .accept revised_content context env =>
            ⟨true, { step with content := revised_content }, context, env, .accepted⟩
        | .reject context env =>
            revise_loop env step
              { context with current_iteration := context.current_iteration + 1 } n
      from rfl, hrr]
    obtain ⟨ctx', hloop, hiter⟩ := ih ⟨ct, gt⟩ step
      { round_ctx ctx p g v with
        current_iteration := (round_ctx ctx p g v).current_iteration + 1 }
      hcq2 hgq1 hrej.2
    refine ⟨ctx', ?_, ?_⟩
    · dsimp only
      dsimp only at hloop
      rw [hloop, h2]
      simp [List.drop_succ_cons]
    · dsimp only at hiter
      rw [hiter, round_ctx_iter]
      omega

end Agento

namespace Agento

lemma revise_loop_accept (j : Nat) :
    ∀ (fuel : Nat) (env : Env) (step : Step) (ctx : RevisionContext) (g v : String),
      j < fuel →
      q_ok_upto (2 * j + 2) env.claude_queue = true →
      q_ok_upto (j + 1) env.gemini_queue = true →
      rejects_upto j env.claude_queue = true →
      env.claude_queue[2 * j + 1]? = some (some v) →
      accepts_verdict v = true →
      env.gemini_queue[j]? = some (some g) →
      ∃ ctx', revise_loop env step ctx fuel =
          ⟨true, { step with content := g }, ctx',
           ⟨env.claude_queue.drop (2 * j + 2), env.gemini_queue.drop (j + 1)⟩,
           .accepted⟩ ∧
        ctx'.current_iteration = ctx.current_iteration + j := by
  induction j with
  | zero =>
    intro fuel env step ctx g v hj hcq hgq _ hv hacc hgj
    match fuel, hj with
    | n + 1, _ =>
    rcases env with ⟨cq, gq⟩
    dsimp only at hcq hgq hv hgj ⊢
    obtain ⟨p, rest, hq1, hp, hcq1⟩ := q_ok_upto_succ (by simpa using hcq)
    obtain ⟨v1, ct, hq2, hv1, _⟩ := q_ok_upto_succ hcq1
    subst hq2
    subst hq1
    obtain ⟨g1, gt, hq3, hg1, _⟩ := q_ok_upto_succ hgq
    subst hq3
    simp only [List.getElem?_cons_succ, List.getElem?_cons_zero, Nat.mul_zero,
      Option.some.injEq] at hv hgj
    subst hv
    subst hgj
    have hrr := run_round_success ct gt p g1 v1 ctx hp hg1 hv1
    rw [if_pos hacc] at hrr
    rw [show revise_loop ⟨some p :: some v1 :: ct, some g1 :: gt⟩ step ctx (n + 1) =
        match run_round ⟨some p :: some v1 :: ct, some g1 :: gt⟩ ctx with
        | .abort context env => ⟨false, step, context, env, .aborted⟩
        | .accept revised_content context env =>
            ⟨true, { step with content := revised_content }, context, env, .accepted⟩
        | .reject context env =>
            revise_loop env step
              { context with current_iteration := context.current_iteration + 1 } n
      from rfl, hrr]
    refine ⟨round_ctx ctx p g1 v1, ?_, by rw [round_ctx_iter]; omega⟩
    simp [List.drop_succ_cons]
  | succ j ih =>
    intro fuel env step ctx g v hj hcq hgq hrej hv hacc hgj
    match fuel, hj with
    | n + 1, _ =>
    have hjn : j < n := by omega
    rcases env with ⟨cq, gq⟩
    dsimp only at hcq hgq hrej hv hgj ⊢
    have h2 : 2 * (j + 1) + 2 = 2 * j + 2 + 1 + 1 := by omega
    rw [h2] at hcq
    obtain ⟨p, rest, hq1, hp, hcq1⟩ := q_ok_upto_succ hcq
    obtain ⟨v1, ct, hq2, hv1, hcq2⟩ := q_ok_upto_succ hcq1
    subst hq2
    subst hq1
    obtain ⟨g1, gt, hq3, hg1, hgq1⟩ := q_ok_upto_succ hgq
    subst hq3
    simp only [rejects_upto, Bool.and_eq_true, Bool.not_eq_true'] at hrej
    have hvshift : (some p :: some v1 :: ct)[2 * (j + 1) + 1]? = ct[2 * j + 1]? := by
      rw [show 2 * (j + 1) + 1 = 2 * j + 1 + 1 + 1 from by omega]
      simp [List.getElem?_cons_succ]
    rw [hvshift] at hv
    simp only [List.getElem?_cons_succ] at hgj
    have hrr := run_round_success ct gt p g1 v1 ctx hp hg1 hv1
    rw [if_neg (by simp [hrej.1])] at hrr
    rw [show revise_loop ⟨some p :: some v1 :: ct, some g1 :: gt⟩ step ctx (n + 1) =
        match run_round ⟨some p :: some v1 :: ct, some g1 :: gt⟩ ctx with
        | .abort context env => ⟨false, step, context, env, .aborted⟩
        | .accept revised_content context env =>
            ⟨true, { step with content := revised_content }, context, env, .accepted⟩
        | .reject context env =>
            revise_loop env step
              { context with current_iteration := context.current_iteration + 1 } n
      from rfl, hrr]
    dsimp only
    obtain ⟨ctx', hloop, hiter⟩ := ih n ⟨ct, gt⟩ step
      { round_ctx ctx p g1 v1 with
        current_iteration := (round_ctx ctx p g1 v1).current_iteration + 1 }
      g v hjn hcq2 hgq1 hrej.2 hv hacc hgj
    dsimp only at hloop hiter
    refine ⟨ctx', ?_, ?_⟩
    · rw [hloop, h2]
      simp [List.drop_succ_cons]
    · rw [hiter, round_ctx_iter]
      omega

end Agento

namespace Agento

lemma further_loop_frame (max_iterations : Nat) (requests : List (String × String)) :
    ∀ (steps : List Step) (env : Env) (contexts : List (String × RevisionContext))
      (i : Nat) (s : Step),
      steps[i]? = some s →
      lookup_request requests s.name = none →
      (further_loop max_iterations requests env contexts steps).outline[i]? = some s := by
  intro steps
  induction steps with
  | nil => intro env contexts i s hs _; simp at hs
  | cons step rest ih =>
    intro env contexts i s hs hnone
    cases i with
    | zero =>
      simp only [List.getElem?_cons_zero, Option.some.injEq] at hs
      subst hs
      rw [further_loop]
      rw [hnone]
      simp
    | succ i =>
      simp only [List.getElem?_cons_succ] at hs
      rw [further_loop]
      cases hl : lookup_request requests step.name with
      | none =>
        simp only [List.getElem?_cons_succ]
        exact ih env contexts i s hs hnone
      | some req =>
        by_cases hok : (revise_step_with_llms max_iterations env step req).ok
        · simp only [hok, if_true, List.getElem?_cons_succ]
          exact ih _ _ i s hs hnone
        · simp only [Bool.not_eq_true] at hok
          simp only [hok, Bool.false_eq_true, if_false, List.getElem?_cons_succ]
          exact hs

lemma further_loop_contexts (max_iterations : Nat) (requests : List (String × String)) :
    ∀ (steps : List Step) (env : Env) (contexts : List (String × RevisionContext))
      (nm : String) (c : RevisionContext),
      (nm, c) ∈ (further_loop max_iterations requests env contexts steps).contexts →
      (nm, c) ∈ contexts ∨ ∃ req, lookup_request requests nm = some req := by
  intro steps
  induction steps with
  | nil => intro env contexts nm c h; exact Or.inl (by simpa [further_loop] using h)
  | cons step rest ih =>
    intro env contexts nm c h
    rw [further_loop] at h
    cases hl : lookup_request requests step.name with
    | none =>
      rw [hl] at h
      exact ih env contexts nm c h
    | some req =>
      rw [hl] at h
      by_cases hok : (revise_step_with_llms max_iterations env step req).ok
      · simp only [hok, if_true] at h
        rcases ih _ _ nm c h with hmem | hreq
        · rcases List.mem_append.1 hmem with hmem' | hmem'
          · exact Or.inl hmem'
          · simp only [List.mem_singleton, Prod.mk.injEq] at hmem'
            exact Or.inr ⟨req, hmem'.1 ▸ hl⟩
        · exact Or.inr hreq
      · simp only [Bool.not_eq_true] at hok
        simp only [hok, Bool.false_eq_true, if_false] at h
        exact Or.inl h

lemma further_loop_filter (max_iterations : Nat) (requests : List (String × String)) :
    ∀ (steps : List Step) (env : Env) (contexts : List (String × RevisionContext)),
      (further_loop max_iterations requests env contexts steps).env =
        (further_loop max_iterations requests env contexts
          (steps.filter fun s => (lookup_request requests s.name).isSome)).env ∧
      (further_loop max_iterations requests env contexts steps).contexts =
        (further_loop max_iterations requests env contexts
          (steps.filter fun s => (lookup_request requests s.name).isSome)).contexts ∧
      (further_loop max_iterations requests env contexts steps).ok =
        (further_loop max_iterations requests env contexts
          (steps.filter fun s => (lookup_request requests s.name).isSome)).ok := by
  intro steps
  induction steps with
  | nil => intro env contexts; exact ⟨rfl, rfl, rfl⟩
  | cons step rest ih =>
    intro env contexts
    cases hl : lookup_request requests step.name with
    | none =>
      have hfilter : (step :: rest).filter (fun s => (lookup_request requests s.name).isSome) =
          rest.filter fun s => (lookup_request requests s.name).isSome := by
        simp [List.filter_cons, hl]
      rw [hfilter, further_loop, hl]
      exact ih env contexts
    | some req =>
      have hfilter : (step :: rest).filter (fun s => (lookup_request requests s.name).isSome) =
          step :: rest.filter fun s => (lookup_request requests s.name).isSome := by
        simp [List.filter_cons, hl]
      rw [hfilter]
      by_cases hok : (revise_step_with_llms max_iterations env step req).ok
      · rw [further_loop, hl]
        rw [show further_loop max_iterations requests env contexts
            (step :: rest.filter fun s => (lookup_request requests s.name).isSome) =
          (let r := revise_step_with_llms max_iterations env step req
           if r.ok then
             let r2 := further_loop max_iterations requests r.env
               (contexts ++ [(step.name, r.context)])
               (rest.filter fun s => (lookup_request requests s.name).isSome)
             { r2 with outline := r.step :: r2.outline }
           else ⟨false, r.step :: rest.filter fun s => (lookup_request requests s.name).isSome,
             contexts, r.env⟩) from by rw [further_loop, hl]]
        simp only [hok, if_true]
        exact ih _ _
      · simp only [Bool.not_eq_true] at hok
        rw [further_loop, hl, further_loop, hl]
        simp only [hok, Bool.false_eq_true, if_false]
        exact ⟨trivial, trivial, trivial⟩


lemma revise_fail_step_unchanged (max_iterations : Nat) (env : Env) (step : Step)
    (revision_request : String)
    (h : (revise_step_with_llms max_iterations env step revision_request).ok = false) :
    (revise_step_with_llms max_iterations env step revision_request).step = step := by
  have hn := revise_loop_not_accepted max_iterations env step
    (init_context step revision_request)
  refine hn.2 ?_
  have hab := hn.1.1 h
  rw [hab]
  simp

lemma further_loop_failfast (max_iterations : Nat) (requests : List (String × String))
    (env : Env) (contexts : List (String × RevisionContext)) (step : Step)
    (rest : List Step) (req : String)
    (hl : lookup_request requests step.name = some req)
    (hfail : (revise_step_with_llms max_iterations env step req).ok = false) :
    further_loop max_iterations requests env contexts (step :: rest) =
      ⟨false, step :: rest, contexts,
       (revise_step_with_llms max_iterations env step req).env⟩ := by
  rw [further_loop, hl]
  simp only [hfail, Bool.false_eq_true, if_false]
  rw [revise_fail_step_unchanged max_iterations env step req hfail]

lemma further_loop_continue (max_iterations : Nat) (requests : List (String × String))
    (env : Env) (contexts : List (String × RevisionContext)) (step : Step)
    (rest : List Step) (req : String)
    (hl : lookup_request requests step.name = some req)
    (hok : (revise_step_with_llms max_iterations env step req).ok = true) :
    further_loop max_iterations requests env contexts (step :: rest) =
      { further_loop max_iterations requests
          (revise_step_with_llms max_iterations env step req).env
          (contexts ++ [(step.name, (revise_step_with_llms max_iterations env step req).context)])
          rest with
        outline := (revise_step_with_llms max_iterations env step req).step ::
          (further_loop max_iterations requests
            (revise_step_with_llms max_iterations env step req).env
            (contexts ++ [(step.name, (revise_step_with_llms max_iterations env step req).context)])
            rest).outline } := by
  rw [further_loop, hl]
  simp only [hok, if_true]

end Agento

namespace Agento

lemma contains_sub_iff (pat : List Char) :
    ∀ l : List Char, contains_sub pat l = true ↔ pat <:+: l := by
  intro l
  induction l with
  | nil =>
    simp [contains_sub, List.isEmpty_iff]
  | cons c rest ih =>
    simp [contains_sub, List.isPrefixOf_iff_prefix, ih, List.infix_cons_iff]

lemma get_claude_mono (env : Env) (ctx : RevisionContext) (p : String) :
    ctx.claude_messages <+: (get_claude_response env ctx p).2.1.claude_messages ∧
    (get_claude_response env ctx p).2.1.gemini_history = ctx.gemini_history ∧
    (get_claude_response env ctx p).2.1.current_iteration = ctx.current_iteration := by
  rcases env with ⟨cq, gq⟩
  rcases cq with _ | ⟨_ | s, ct⟩ <;>
    simp [claude_fail_nil, claude_fail_none, claude_success, List.append_assoc]

lemma get_gemini_mono (env : Env) (ctx : RevisionContext) (p : String) :
    ctx.gemini_history <+: (get_gemini_response env ctx p).2.1.gemini_history ∧
    (get_gemini_response env ctx p).2.1.claude_messages = ctx.claude_messages ∧
    (get_gemini_response env ctx p).2.1.current_iteration = ctx.current_iteration := by
  rcases env with ⟨cq, gq⟩
  rcases gq with _ | ⟨_ | s, gt⟩ <;>
    simp [gemini_fail_nil, gemini_fail_none, gemini_success]

lemma run_round_abort_claude_none (ct gq : List (Option String)) (ctx : RevisionContext) :
    run_round ⟨none :: ct, gq⟩ ctx =
      .abort { ctx with claude_messages :=
        ctx.claude_messages ++ [⟨"user", claude_prompt ctx⟩] } ⟨ct, gq⟩ := rfl

lemma run_round_abort_gemini_none (p : String) (ct gt : List (Option String))
    (ctx : RevisionContext) (hp : p ≠ "") :
    ∃ c, run_round ⟨some p :: ct, none :: gt⟩ ctx = .abort c ⟨ct, gt⟩ := by
  refine ⟨(run_round ⟨some p :: ct, none :: gt⟩ ctx).rctx, ?_⟩
  simp [run_round, claude_success, gemini_fail_none, hp, RoundResult.rctx]

lemma run_round_abort_review_none (p g : String) (ct gt : List (Option String))
    (ctx : RevisionContext) (hp : p ≠ "") (hg : g ≠ "") :
    ∃ c, run_round ⟨some p :: none :: ct, some g :: gt⟩ ctx = .abort c ⟨ct, gt⟩ := by
  refine ⟨(run_round ⟨some p :: none :: ct, some g :: gt⟩ ctx).rctx, ?_⟩
  simp [run_round, claude_success, gemini_success, claude_fail_none, hp, hg, RoundResult.rctx]

lemma revise_loop_succ_eq (env : Env) (step : Step) (ctx : RevisionContext) (n : Nat) :
    revise_loop env step ctx (n + 1) =
      match run_round env ctx with
      | .abort context env2 => ⟨false, step, context, env2, .aborted⟩
      | .accept revised_content context env2 =>
          ⟨true, { step with content := revised_content }, context, env2, .accepted⟩
      | .reject context env2 =>
          revise_loop env2 step
            { context with current_iteration := context.current_iteration + 1 } n := rfl

end Agento

namespace Agento

/-- C1: the revision protocol runs at most `max_iterations`
instruct-revise-review rounds whatever the two backends reply (at most
`2 * max_iterations` Claude calls and `max_iterations` Gemini calls are
consumed), and when all replies arrive but no review reply is classified
as accepting, it terminates in the exhausted state with the step — its
`content` field included — unchanged, after exactly `max_iterations`
rounds (`current_iteration` ends at `max_iterations + 1`, and the
function still returns the plan). -/
theorem C1_bounded_rounds_and_exhaustion_leaves_content :
    (∀ (max_iterations : Nat) (env : Env) (step : Step) (req : String),
      ∃ a, a ≤ 2 * max_iterations ∧ ∃ b, b ≤ max_iterations ∧
        (revise_step_with_llms max_iterations env step req).env.claude_queue =
          env.claude_queue.drop a ∧
        (revise_step_with_llms max_iterations env step req).env.gemini_queue =
          env.gemini_queue.drop b) ∧
    (∀ (max_iterations : Nat) (env : Env) (step : Step) (req : String),
      q_ok_upto (2 * max_iterations) env.claude_queue = true →
      q_ok_upto max_iterations env.gemini_queue = true →
      reviews_reject env.claude_queue = true →
      (revise_step_with_llms max_iterations env step req).outcome = .exhausted ∧
      (revise_step_with_llms max_iterations env step req).ok = true ∧
      (revise_step_with_llms max_iterations env step req).step = step ∧
      (revise_step_with_llms max_iterations env step req).context.current_iteration =
        max_iterations + 1 ∧
      (revise_step_with_llms max_iterations env step req).env.claude_queue =
        env.claude_queue.drop (2 * max_iterations) ∧
      (revise_step_with_llms max_iterations env step req).env.gemini_queue =
        env.gemini_queue.drop max_iterations) := by
  constructor
  · intro max_iterations env step req
    exact revise_loop_consume max_iterations env step (init_context step req)
  · intro max_iterations env step req hcq hgq hrej
    obtain ⟨ctx', hloop, hiter⟩ :=
      revise_loop_exhaust max_iterations env step (init_context step req) hcq hgq hrej
    rw [revise_step_with_llms, hloop]
    refine ⟨rfl, rfl, rfl, ?_, rfl, rfl⟩
    dsimp only
    rw [hiter]
    simp only [init_context]
    omega

/-- C1 at a concrete input: three rounds with a reviewer that always
replies "NO ...", `max_iterations = 3`: exhausted, step unchanged. -/
theorem C1_witness :
    (revise_step_with_llms 3
      ⟨[some "i1", some "NO 1", some "i2", some "NO 2", some "i3", some "NO 3"],
       [some "r1", some "r2", some "r3"]⟩
      ⟨"Body", "body original"⟩ "add detail").outcome = .exhausted ∧
    (revise_step_with_llms 3
      ⟨[some "i1", some "NO 1", some "i2", some "NO 2", some "i3", some "NO 3"],
       [some "r1", some "r2", some "r3"]⟩
      ⟨"Body", "body original"⟩ "add detail").step = ⟨"Body", "body original"⟩ := by
  have h := C1_bounded_rounds_and_exhaustion_leaves_content.2 3
    ⟨[some "i1", some "NO 1", some "i2", some "NO 2", some "i3", some "NO 3"],
     [some "r1", some "r2", some "r3"]⟩
    ⟨"Body", "body original"⟩ "add detail" (by decide) (by decide) (by decide)
  exact ⟨h.1, h.2.2.1⟩

end Agento

namespace Agento

/-- C2: if every review reply before round `j + 1` rejects, all calls
through round `j + 1` succeed, and round `j + 1`'s review reply `v` is
classified as accepting (with `j + 1 ≤ max_iterations`), then the
protocol writes that same round's Gemini output `g` into the step's
`content`, returns the plan with outcome `accepted`, and executes no
further round: exactly `2 * (j + 1)` Claude calls and `j + 1` Gemini calls
are consumed, and `current_iteration` ends at `j + 1`. -/
theorem C2_accept_writes_reviser_output_of_same_round
    (max_iterations j : Nat) (env : Env) (step : Step) (req : String) (g v : String)
    (hj : j + 1 ≤ max_iterations)
    (hcq : q_ok_upto (2 * j + 2) env.claude_queue = true)
    (hgq : q_ok_upto (j + 1) env.gemini_queue = true)
    (hrej : rejects_upto j env.claude_queue = true)
    (hv : env.claude_queue[2 * j + 1]? = some (some v))
    (hacc : accepts_verdict v = true)
    (hg : env.gemini_queue[j]? = some (some g)) :
    (revise_step_with_llms max_iterations env step req).outcome = .accepted ∧
    (revise_step_with_llms max_iterations env step req).ok = true ∧
    (revise_step_with_llms max_iterations env step req).step =
      { step with content := g } ∧
    (revise_step_with_llms max_iterations env step req).context.current_iteration =
      j + 1 ∧
    (revise_step_with_llms max_iterations env step req).env.claude_queue =
      env.claude_queue.drop (2 * j + 2) ∧
    (revise_step_with_llms max_iterations env step req).env.gemini_queue =
      env.gemini_queue.drop (j + 1) := by
  obtain ⟨ctx', hloop, hiter⟩ := revise_loop_accept j max_iterations env step
    (init_context step req) g v (by omega) hcq hgq hrej hv hacc hg
  rw [revise_step_with_llms, hloop]
  refine ⟨rfl, rfl, rfl, ?_, rfl, rfl⟩
  dsimp only
  rw [hiter]
  simp only [init_context]
  omega

/-- C2 at a concrete input: rejection in round 1, acceptance in round 2
of a 3-round budget; the step's content becomes the round-2 Gemini
output. -/
theorem C2_witness :
    (revise_step_with_llms 3
      ⟨[some "i1", some "NO", some "i2", some "YES good"], [some "r1", some "r2"]⟩
      ⟨"Body", "body original"⟩ "add detail").step = ⟨"Body", "r2"⟩ ∧
    (revise_step_with_llms 3
      ⟨[some "i1", some "NO", some "i2", some "YES good"], [some "r1", some "r2"]⟩
      ⟨"Body", "body original"⟩ "add detail").outcome = .accepted ∧
    (revise_step_with_llms 3
      ⟨[some "i1", some "NO", some "i2", some "YES good"], [some "r1", some "r2"]⟩
      ⟨"Body", "body original"⟩ "add detail").context.current_iteration = 2 := by
  have h := C2_accept_writes_reviser_output_of_same_round 3 1
    ⟨[some "i1", some "NO", some "i2", some "YES good"], [some "r1", some "r2"]⟩
    ⟨"Body", "body original"⟩ "add detail" "r2" "YES good"
    (by omega) (by decide) (by decide) (by decide) (by decide) (by decide) (by decide)
  exact ⟨h.2.2.1, h.1, h.2.2.2.1⟩

/-- The plan restricted to the steps that have a pending revision
request (the subset the driver actually runs the protocol on). -/
def requested_only (plan : Plan) : Plan :=
  { plan with
    Detailed_Outline :=
      plan.Detailed_Outline.filter
        (fun t => (lookup_request plan.revision_requests t.name).isSome) }

/-- C3: a step of the plan whose name has no entry in
`revision_requests` is byte-identical in the outline after running the
driver, gains no entry in the returned `revision_contexts`, and no model
call or protocol invocation is made on its behalf: the driver's final
backend-call state (and its recorded contexts) are exactly those of a run
over only the requested steps. -/
theorem C3_unrequested_steps_passed_through
    (max_iterations : Nat) (env : Env) (plan : Plan) (i : Nat) (s : Step)
    (hs : plan.Detailed_Outline[i]? = some s)
    (hnone : lookup_request plan.revision_requests s.name = none) :
    (further_revise_plan max_iterations env plan).plan.Detailed_Outline[i]? = some s ∧
    (∀ c, (s.name, c) ∉ (further_revise_plan max_iterations env plan).contexts) ∧
    (further_revise_plan max_iterations env plan).env =
      (further_revise_plan max_iterations env (requested_only plan)).env ∧
    (further_revise_plan max_iterations env plan).contexts =
      (further_revise_plan max_iterations env (requested_only plan)).contexts := by
  refine ⟨?_, ?_, ?_, ?_⟩
  · exact further_loop_frame max_iterations plan.revision_requests
      plan.Detailed_Outline env [] i s hs hnone
  · intro c hc
    rcases further_loop_contexts max_iterations plan.revision_requests
      plan.Detailed_Outline env [] s.name c hc with hmem | ⟨req, hreq⟩
    · simp at hmem
    · rw [hnone] at hreq; cases hreq
  · exact (further_loop_filter max_iterations plan.revision_requests
      plan.Detailed_Outline env []).1
  · exact (further_loop_filter max_iterations plan.revision_requests
      plan.Detailed_Outline env []).2.1


/-- C3 at a concrete input: the "Intro" step has no revision request and
is returned untouched, with no context recorded for it. -/
theorem C3_witness :
    (further_revise_plan 1
      ⟨[some "i1", some "NO"], [some "r1"]⟩
      ⟨"T", "S", [⟨"Intro", "intro original"⟩, ⟨"Body", "body original"⟩],
       [("Body", "add detail")]⟩).plan.Detailed_Outline[0]? =
      some ⟨"Intro", "intro original"⟩ ∧
    (∀ c, ("Intro", c) ∉ (further_revise_plan 1
      ⟨[some "i1", some "NO"], [some "r1"]⟩
      ⟨"T", "S", [⟨"Intro", "intro original"⟩, ⟨"Body", "body original"⟩],
       [("Body", "add detail")]⟩).contexts) := by
  have h := C3_unrequested_steps_passed_through 1
    ⟨[some "i1", some "NO"], [some "r1"]⟩
    ⟨"T", "S", [⟨"Intro", "intro original"⟩, ⟨"Body", "body original"⟩],
     [("Body", "add detail")]⟩
    0 ⟨"Intro", "intro original"⟩ (by decide) (by decide)
  exact ⟨h.1, h.2.1⟩

/-- C4: when a requested step's protocol invocation fails (returns
`None`), the driver's loop halts at that step at once: the batch result is
a failure, the remaining steps are returned exactly as they were (no later
step is processed, no further backend call is made), the failing step's
content is untouched, and the contexts recorded so far are returned as
they stand.  When the invocation succeeds, the revised step is folded into
the outline and kept there whatever happens afterwards (no rollback of
earlier steps). -/
theorem C4_first_failure_halts_batch_without_rollback
    (max_iterations : Nat) (requests : List (String × String)) (env : Env)
    (contexts : List (String × RevisionContext)) (step : Step) (rest : List Step)
    (req : String)
    (hl : lookup_request requests step.name = some req) :
    ((revise_step_with_llms max_iterations env step req).ok = false →
      further_loop max_iterations requests env contexts (step :: rest) =
        ⟨false, step :: rest, contexts,
         (revise_step_with_llms max_iterations env step req).env⟩) ∧
    ((revise_step_with_llms max_iterations env step req).ok = true →
      further_loop max_iterations requests env contexts (step :: rest) =
        { further_loop max_iterations requests
            (revise_step_with_llms max_iterations env step req).env
            (contexts ++
              [(step.name, (revise_step_with_llms max_iterations env step req).context)])
            rest with
          outline := (revise_step_with_llms max_iterations env step req).step ::
            (further_loop max_iterations requests
              (revise_step_with_llms max_iterations env step req).env
              (contexts ++
                [(step.name,
                  (revise_step_with_llms max_iterations env step req).context)])
              rest).outline }) := by
  constructor
  · intro hfail
    exact further_loop_failfast max_iterations requests env contexts step rest req hl hfail
  · intro hok
    exact further_loop_continue max_iterations requests env contexts step rest req hl hok

/-- C4 at a concrete input: with empty reply queues the first requested
step's protocol invocation fails, the batch halts with the later step
unprocessed and the earlier contexts intact. -/
theorem C4_witness :
    further_loop 3 [("Body", "add detail")] ⟨[], []⟩ []
        [⟨"Body", "body original"⟩, ⟨"Later", "later original"⟩] =
      ⟨false, [⟨"Body", "body original"⟩, ⟨"Later", "later original"⟩], [], ⟨[], []⟩⟩ := by
  have h := (C4_first_failure_halts_batch_without_rollback 3 [("Body", "add detail")]
    ⟨[], []⟩ [] ⟨"Body", "body original"⟩ [⟨"Later", "later original"⟩]
    "add detail" (by decide)).1 (by decide)
  simpa using h

end Agento

namespace Agento

/-- C5: the accept/reject classification used by the protocol is exactly
the case-insensitive substring test for the affirmative token: a reply
`v` is classified as accepting iff the uppercased `v` contains `"YES"`
as a contiguous substring, and in any fully answered round the protocol's
transition (accept vs reject) is decided by that predicate alone. -/
theorem C5_verdict_is_case_insensitive_substring_match :
    (∀ v : String, accepts_verdict v = true ↔
      ∃ pre post, (str_upper v).data = pre ++ "YES".data ++ post) ∧
    (∀ (ct gt : List (Option String)) (p g v : String) (ctx : RevisionContext),
      p ≠ "" → g ≠ "" → v ≠ "" →
      ((∃ c e, run_round ⟨some p :: some v :: ct, some g :: gt⟩ ctx = .accept g c e) ↔
        accepts_verdict v = true)) := by
  constructor
  · intro v
    rw [accepts_verdict, contains_sub_iff]
    constructor
    · rintro ⟨pre, post, h⟩
      exact ⟨pre, post, h.symm⟩
    · rintro ⟨pre, post, h⟩
      exact ⟨pre, post, h.symm⟩
  · intro ct gt p g v ctx hp hg hv
    rw [run_round_success ct gt p g v ctx hp hg hv]
    constructor
    · rintro ⟨c, e, hacc⟩
      by_cases ha : accepts_verdict v
      · exact ha
      · rw [if_neg (by simp [ha])] at hacc
        cases hacc
    · intro ha
      rw [if_pos ha]
      exact ⟨_, _, rfl⟩

/-- C6: a failed backend call never escapes as an exception — the wrapper
returns `None` (first conjunct for Claude, second for Gemini); whenever a
protocol run returns `None` the step is untouched (third conjunct); and a
failing instruct, revise or review call makes the protocol return
`(None, context)` at once, consuming nothing further (remaining
conjuncts, for a first-round failure at each of the three call sites). -/
theorem C6_call_failures_downgrade_to_none_and_abort :
    (∀ (env : Env) (ctx : RevisionContext) (p : String),
      env.claude_queue.head? = some none → (get_claude_response env ctx p).1 = none) ∧
    (∀ (env : Env) (ctx : RevisionContext) (p : String),
      env.gemini_queue.head? = some none → (get_gemini_response env ctx p).1 = none) ∧
    (∀ (fuel : Nat) (env : Env) (step : Step) (ctx : RevisionContext),
      (revise_loop env step ctx fuel).ok = false →
      (revise_loop env step ctx fuel).outcome = .aborted ∧
      (revise_loop env step ctx fuel).step = step) ∧
    (∀ (max_iterations : Nat) (ct gq : List (Option String)) (step : Step)
      (req : String), 1 ≤ max_iterations →
      (revise_step_with_llms max_iterations ⟨none :: ct, gq⟩ step req).ok = false ∧
      (revise_step_with_llms max_iterations ⟨none :: ct, gq⟩ step req).outcome = .aborted ∧
      (revise_step_with_llms max_iterations ⟨none :: ct, gq⟩ step req).step = step ∧
      (revise_step_with_llms max_iterations ⟨none :: ct, gq⟩ step req).env = ⟨ct, gq⟩) ∧
    (∀ (max_iterations : Nat) (p : String) (ct gt : List (Option String)) (step : Step)
      (req : String), 1 ≤ max_iterations → p ≠ "" →
      (revise_step_with_llms max_iterations ⟨some p :: ct, none :: gt⟩ step req).ok = false ∧
      (revise_step_with_llms max_iterations ⟨some p :: ct, none :: gt⟩ step req).outcome =
        .aborted ∧
      (revise_step_with_llms max_iterations ⟨some p :: ct, none :: gt⟩ step req).step = step ∧
      (revise_step_with_llms max_iterations ⟨some p :: ct, none :: gt⟩ step req).env =
        ⟨ct, gt⟩) ∧
    (∀ (max_iterations : Nat) (p g : String) (ct gt : List (Option String)) (step : Step)
      (req : String), 1 ≤ max_iterations → p ≠ "" → g ≠ "" →
      (revise_step_with_llms max_iterations ⟨some p :: none :: ct, some g :: gt⟩
        step req).ok = false ∧
      (revise_step_with_llms max_iterations ⟨some p :: none :: ct, some g :: gt⟩
        step req).outcome = .aborted ∧
      (revise_step_with_llms max_iterations ⟨some p :: none :: ct, some g :: gt⟩
        step req).step = step ∧
      (revise_step_with_llms max_iterations ⟨some p :: none :: ct, some g :: gt⟩
        step req).env = ⟨ct, gt⟩) := by
  refine ⟨?_, ?_, ?_, ?_, ?_, ?_⟩
  · intro env ctx p h
    rcases env with ⟨cq, gq⟩
    rcases cq with _ | ⟨o, ct⟩
    · simp at h
    · simp only [List.head?_cons, Option.some.injEq] at h
      subst h
      rw [claude_fail_none]
  · intro env ctx p h
    rcases env with ⟨cq, gq⟩
    rcases gq with _ | ⟨o, gt⟩
    · simp at h
    · simp only [List.head?_cons, Option.some.injEq] at h
      subst h
      rw [gemini_fail_none]
  · intro fuel env step ctx hfail
    have h := revise_loop_not_accepted fuel env step ctx
    have hab := h.1.1 hfail
    exact ⟨hab, h.2 (by rw [hab]; simp)⟩
  · intro max_iterations ct gq step req hmax
    match max_iterations, hmax with
    | m + 1, _ =>
    rw [revise_step_with_llms, revise_loop_succ_eq, run_round_abort_claude_none]
    exact ⟨rfl, rfl, rfl, rfl⟩
  · intro max_iterations p ct gt step req hmax hp
    match max_iterations, hmax with
    | m + 1, _ =>
    obtain ⟨c, hab⟩ := run_round_abort_gemini_none p ct gt (init_context step req) hp
    rw [revise_step_with_llms, revise_loop_succ_eq, hab]
    exact ⟨rfl, rfl, rfl, rfl⟩
  · intro max_iterations p g ct gt step req hmax hp hg
    match max_iterations, hmax with
    | m + 1, _ =>
    obtain ⟨c, hab⟩ := run_round_abort_review_none p g ct gt (init_context step req) hp hg
    rw [revise_step_with_llms, revise_loop_succ_eq, hab]
    exact ⟨rfl, rfl, rfl, rfl⟩

/-- C6 at a concrete input: a raising Gemini call in round 1 makes the
protocol return `None` with the step untouched. -/
theorem C6_witness :
    (get_gemini_response ⟨[], [none]⟩ ⟨"n", "o", "r", [], [], 1⟩ "prompt").1 = none ∧
    (revise_step_with_llms 3 ⟨[some "i1"], [none]⟩ ⟨"Body", "body original"⟩
      "add detail").ok = false ∧
    (revise_step_with_llms 3 ⟨[some "i1"], [none]⟩ ⟨"Body", "body original"⟩
      "add detail").step = ⟨"Body", "body original"⟩ := by
  have h1 := C6_call_failures_downgrade_to_none_and_abort.2.1
    ⟨[], [none]⟩ ⟨"n", "o", "r", [], [], 1⟩ "prompt" (by decide)
  have h2 := C6_call_failures_downgrade_to_none_and_abort.2.2.2.2.1
    3 "i1" [] [] ⟨"Body", "body original"⟩ "add detail" (by omega) (by decide)
  exact ⟨h1, h2.1, h2.2.2.1⟩

end Agento

namespace Agento

/-- C8 counterexample: a transient Claude failure — the very next attempt
would succeed, its reply sits unconsumed in the queue — is not retried:
`get_claude_response` surfaces `None` after a single attempt (exactly one
queue element consumed, the successful reply still queued) and the
protocol aborts the step's revision at once. -/
theorem C8_counterexample :
    (get_claude_response ⟨[none, some "ok on retry"], [some "rev"]⟩
      ⟨"n", "o", "r", [], [], 1⟩ "prompt").1 = none ∧
    (get_claude_response ⟨[none, some "ok on retry"], [some "rev"]⟩
      ⟨"n", "o", "r", [], [], 1⟩ "prompt").2.2.claude_queue = [some "ok on retry"] ∧
    (revise_step_with_llms 3 ⟨[none, some "ok on retry"], [some "rev"]⟩
      ⟨"Body", "body original"⟩ "add detail").ok = false ∧
    (revise_step_with_llms 3 ⟨[none, some "ok on retry"], [some "rev"]⟩
      ⟨"Body", "body original"⟩ "add detail").outcome = .aborted ∧
    (revise_step_with_llms 3 ⟨[none, some "ok on retry"], [some "rev"]⟩
      ⟨"Body", "body original"⟩ "add detail").env =
      ⟨[some "ok on retry"], [some "rev"]⟩ := by
  refine ⟨rfl, rfl, ?_, ?_, ?_⟩ <;> rfl

/-- C8 amended: the gateway wrappers make exactly one backend attempt per
call and implement no retry or backoff — any raising call immediately
surfaces as `None` with exactly one queue element consumed, and the
protocol thereupon aborts the step's revision (shown for a first-call
Claude failure and for a Gemini failure). -/
theorem C8_no_retry_single_attempt
    (env : Env) (ctx : RevisionContext) (p : String) (max_iterations : Nat)
    (step : Step) (req : String)
    (hc : env.claude_queue.head? = some none)
    (hmax : 1 ≤ max_iterations) :
    (get_claude_response env ctx p).1 = none ∧
    (get_claude_response env ctx p).2.2.claude_queue = env.claude_queue.tail ∧
    (get_claude_response env ctx p).2.2.gemini_queue = env.gemini_queue ∧
    (∀ env2 : Env, ∀ q : String, env2.gemini_queue.head? = some none →
      (get_gemini_response env2 ctx q).1 = none ∧
      (get_gemini_response env2 ctx q).2.2.gemini_queue = env2.gemini_queue.tail ∧
      (get_gemini_response env2 ctx q).2.2.claude_queue = env2.claude_queue) ∧
    (revise_step_with_llms max_iterations env step req).ok = false ∧
    (revise_step_with_llms max_iterations env step req).outcome = .aborted ∧
    (revise_step_with_llms max_iterations env step req).env.claude_queue =
      env.claude_queue.tail ∧
    (revise_step_with_llms max_iterations env step req).env.gemini_queue =
      env.gemini_queue := by
  rcases env with ⟨cq, gq⟩
  rcases cq with _ | ⟨o, ct⟩
  · simp at hc
  simp only [List.head?_cons, Option.some.injEq] at hc
  subst hc
  match max_iterations, hmax with
  | m + 1, _ =>
  refine ⟨?_, ?_, ?_, ?_, ?_, ?_, ?_, ?_⟩
  · rw [claude_fail_none]
  · rw [claude_fail_none]
    rfl
  · rw [claude_fail_none]
  · intro env2 q h2
    rcases env2 with ⟨cq2, gq2⟩
    rcases gq2 with _ | ⟨o2, gt2⟩
    · simp at h2
    simp only [List.head?_cons, Option.some.injEq] at h2
    subst h2
    refine ⟨by rw [gemini_fail_none], ?_, by rw [gemini_fail_none]⟩
    rw [gemini_fail_none]
    rfl
  · rw [revise_step_with_llms, revise_loop_succ_eq, run_round_abort_claude_none]
  · rw [revise_step_with_llms, revise_loop_succ_eq, run_round_abort_claude_none]
  · rw [revise_step_with_llms, revise_loop_succ_eq, run_round_abort_claude_none]
    rfl
  · rw [revise_step_with_llms, revise_loop_succ_eq, run_round_abort_claude_none]

/-- C8 amended claim at a concrete input. -/
theorem C8_witness :
    (get_claude_response ⟨[none], []⟩ ⟨"n", "o", "r", [], [], 1⟩ "p").1 = none ∧
    (revise_step_with_llms 3 ⟨[none], []⟩ ⟨"Body", "b"⟩ "req").ok = false := by
  have h := C8_no_retry_single_attempt ⟨[none], []⟩ ⟨"n", "o", "r", [], [], 1⟩ "p" 3
    ⟨"Body", "b"⟩ "req" (by decide) (by omega)
  exact ⟨h.1, h.2.2.2.2.1⟩

/-- C9: within one step's protocol run both conversation histories are
append-only — every wrapper call and every round extends them in place,
so the history a run leaves behind always has the history it started from
as a prefix (lengths are monotonically non-decreasing) — and every
invocation of `revise_step_with_llms` builds its own fresh context whose
histories start empty, so nothing is carried over between two steps'
contexts. -/
theorem C9_histories_append_only_and_fresh_per_step :
    (∀ (step : Step) (req : String),
      (init_context step req).claude_messages = [] ∧
      (init_context step req).gemini_history = [] ∧
      (init_context step req).current_iteration = 1) ∧
    (∀ (max_iterations : Nat) (env : Env) (step : Step) (req : String),
      revise_step_with_llms max_iterations env step req =
        revise_loop env step (init_context step req) max_iterations) ∧
    (∀ (env : Env) (ctx : RevisionContext) (p : String),
      ctx.claude_messages <+: (get_claude_response env ctx p).2.1.claude_messages ∧
      (get_claude_response env ctx p).2.1.gemini_history = ctx.gemini_history) ∧
    (∀ (env : Env) (ctx : RevisionContext) (p : String),
      ctx.gemini_history <+: (get_gemini_response env ctx p).2.1.gemini_history ∧
      (get_gemini_response env ctx p).2.1.claude_messages = ctx.claude_messages) ∧
    (∀ (fuel : Nat) (env : Env) (step : Step) (ctx : RevisionContext),
      ctx.claude_messages <+: (revise_loop env step ctx fuel).context.claude_messages ∧
      ctx.gemini_history <+: (revise_loop env step ctx fuel).context.gemini_history) := by
  refine ⟨?_, ?_, ?_, ?_, ?_⟩
  · intro step req
    exact ⟨rfl, rfl, rfl⟩
  · intro max_iterations env step req
    rfl
  · intro env ctx p
    exact ⟨(get_claude_mono env ctx p).1, (get_claude_mono env ctx p).2.1⟩
  · intro env ctx p
    exact ⟨(get_gemini_mono env ctx p).1, (get_gemini_mono env ctx p).2.1⟩
  · intro fuel env step ctx
    exact revise_loop_mono fuel env step ctx

/-- C10: on a failing call `get_claude_response` returns `None` with the
Claude history grown by exactly the one unanswered user prompt (it was
appended before the call), while `get_gemini_response` returns `None`
with the Gemini history unchanged (it appends only after success); on a
successful call each wrapper grows its history by exactly two entries,
the request and the reply. -/
theorem C10_failure_time_history_mutation_is_asymmetric :
    (∀ (env : Env) (ctx : RevisionContext) (p : String),
      (get_claude_response env ctx p).1 = none →
      (get_claude_response env ctx p).2.1 =
        { ctx with claude_messages := ctx.claude_messages ++ [⟨"user", p⟩] }) ∧
    (∀ (env : Env) (ctx : RevisionContext) (p s : String),
      (get_claude_response env ctx p).1 = some s →
      (get_claude_response env ctx p).2.1 =
        { ctx with claude_messages :=
            ctx.claude_messages ++ [⟨"user", p⟩, ⟨"assistant", s⟩] }) ∧
    (∀ (env : Env) (ctx : RevisionContext) (p : String),
      (get_gemini_response env ctx p).1 = none →
      (get_gemini_response env ctx p).2.1 = ctx) ∧
    (∀ (env : Env) (ctx : RevisionContext) (p s : String),
      (get_gemini_response env ctx p).1 = some s →
      (get_gemini_response env ctx p).2.1 =
        { ctx with gemini_history :=
            ctx.gemini_history ++ [⟨"user", p⟩, ⟨"model", s⟩] }) := by
  refine ⟨?_, ?_, ?_, ?_⟩
  · intro env ctx p h
    rcases env with ⟨cq, gq⟩
    rcases cq with _ | ⟨_ | s, ct⟩
    · rw [claude_fail_nil]
    · rw [claude_fail_none]
    · rw [claude_success] at h
      cases h
  · intro env ctx p s h
    rcases env with ⟨cq, gq⟩
    rcases cq with _ | ⟨_ | s0, ct⟩
    · rw [claude_fail_nil] at h
      cases h
    · rw [claude_fail_none] at h
      cases h
    · rw [claude_success] at h ⊢
      simp only [Option.some.injEq] at h
      subst h
      simp [List.append_assoc]
  · intro env ctx p h
    rcases env with ⟨cq, gq⟩
    rcases gq with _ | ⟨_ | s, gt⟩
    · rw [gemini_fail_nil]
    · rw [gemini_fail_none]
    · rw [gemini_success] at h
      cases h
  · intro env ctx p s h
    rcases env with ⟨cq, gq⟩
    rcases gq with _ | ⟨_ | s0, gt⟩
    · rw [gemini_fail_nil] at h
      cases h
    · rw [gemini_fail_none] at h
      cases h
    · rw [gemini_success] at h ⊢
      simp only [Option.some.injEq] at h
      subst h
      rfl

/-- C10 at concrete inputs: one failing and one successful call per
backend. -/
theorem C10_witness :
    (get_claude_response ⟨[none], [none]⟩ ⟨"n", "o", "r", [], [], 1⟩ "p").2.1 =
      ⟨"n", "o", "r", [⟨"user", "p"⟩], [], 1⟩ ∧
    (get_gemini_response ⟨[none], [none]⟩ ⟨"n", "o", "r", [], [], 1⟩ "p").2.1 =
      ⟨"n", "o", "r", [], [], 1⟩ ∧
    (get_claude_response ⟨[some "a"], [some "b"]⟩ ⟨"n", "o", "r", [], [], 1⟩ "p").2.1 =
      ⟨"n", "o", "r", [⟨"user", "p"⟩, ⟨"assistant", "a"⟩], [], 1⟩ ∧
    (get_gemini_response ⟨[some "a"], [some "b"]⟩ ⟨"n", "o", "r", [], [], 1⟩ "p").2.1 =
      ⟨"n", "o", "r", [], [⟨"user", "p"⟩, ⟨"model", "b"⟩], 1⟩ := by
  refine ⟨?_, ?_, ?_, ?_⟩
  · exact C10_failure_time_history_mutation_is_asymmetric.1
      ⟨[none], [none]⟩ ⟨"n", "o", "r", [], [], 1⟩ "p" rfl
  · exact C10_failure_time_history_mutation_is_asymmetric.2.2.1
      ⟨[none], [none]⟩ ⟨"n", "o", "r", [], [], 1⟩ "p" rfl
  · exact C10_failure_time_history_mutation_is_asymmetric.2.1
      ⟨[some "a"], [some "b"]⟩ ⟨"n", "o", "r", [], [], 1⟩ "p" "a" rfl
  · exact C10_failure_time_history_mutation_is_asymmetric.2.2.2
      ⟨[some "a"], [some "b"]⟩ ⟨"n", "o", "r", [], [], 1⟩ "p" "b" rfl

end Agento

namespace Agento

/-- C7 counterexample: in the spec's concrete scenario — plan
`["Intro", "Body"]`, a request only for `"Body"`, `max_iterations = 1`,
instructor replies `"instructions"` then `"NO needs work"`, reviser reply
`"REVISED BODY"` — the round-1 reviser output is `"REVISED BODY"`
(second conjunct: it is the round's entry in the Gemini history), yet
after the driver runs, `Body.content` is still `"body original"`, not the
reviser output: the source writes `step["content"]` only on an accepted
verdict, never on exhaustion. -/
theorem C7_counterexample :
    (further_revise_plan 1
        ⟨[some "instructions", some "NO needs work"], [some "REVISED BODY"]⟩
        ⟨"T", "S", [⟨"Intro", "intro original"⟩, ⟨"Body", "body original"⟩],
         [("Body", "add more detail")]⟩).plan.Detailed_Outline[1]? =
      some ⟨"Body", "body original"⟩ ∧
    (revise_step_with_llms 1
        ⟨[some "instructions", some "NO needs work"], [some "REVISED BODY"]⟩
        ⟨"Body", "body original"⟩ "add more detail").context.gemini_history =
      [⟨"user", "instructions"⟩, ⟨"model", "REVISED BODY"⟩] ∧
    ¬ (further_revise_plan 1
        ⟨[some "instructions", some "NO needs work"], [some "REVISED BODY"]⟩
        ⟨"T", "S", [⟨"Intro", "intro original"⟩, ⟨"Body", "body original"⟩],
         [("Body", "add more detail")]⟩).plan.Detailed_Outline[1]? =
      some ⟨"Body", "REVISED BODY"⟩ := by
  refine ⟨rfl, rfl, ?_⟩
  decide

/-- C7 amended: in the same scenario the batch returns successfully
(exhaustion is not a batch failure), `Intro.content` is unchanged, the
protocol for `"Body"` ends exhausted after its single round
(`current_iteration` = 2) with a context recorded for it — but
`Body.content` is also unchanged, equal to its pre-loop value rather
than to the round-1 reviser output. -/
theorem C7_amended_run :
    (further_revise_plan 1
        ⟨[some "instructions", some "NO needs work"], [some "REVISED BODY"]⟩
        ⟨"T", "S", [⟨"Intro", "intro original"⟩, ⟨"Body", "body original"⟩],
         [("Body", "add more detail")]⟩).ok = true ∧
    (further_revise_plan 1
        ⟨[some "instructions", some "NO needs work"], [some "REVISED BODY"]⟩
        ⟨"T", "S", [⟨"Intro", "intro original"⟩, ⟨"Body", "body original"⟩],
         [("Body", "add more detail")]⟩).plan.Detailed_Outline[0]? =
      some ⟨"Intro", "intro original"⟩ ∧
    (further_revise_plan 1
        ⟨[some "instructions", some "NO needs work"], [some "REVISED BODY"]⟩
        ⟨"T", "S", [⟨"Intro", "intro original"⟩, ⟨"Body", "body original"⟩],
         [("Body", "add more detail")]⟩).plan.Detailed_Outline[1]? =
      some ⟨"Body", "body original"⟩ ∧
    (revise_step_with_llms 1
        ⟨[some "instructions", some "NO needs work"], [some "REVISED BODY"]⟩
        ⟨"Body", "body original"⟩ "add more detail").outcome = .exhausted ∧
    (revise_step_with_llms 1
        ⟨[some "instructions", some "NO needs work"], [some "REVISED BODY"]⟩
        ⟨"Body", "body original"⟩ "add more detail").context.current_iteration = 2 ∧
    ((further_revise_plan 1
        ⟨[some "instructions", some "NO needs work"], [some "REVISED BODY"]⟩
        ⟨"T", "S", [⟨"Intro", "intro original"⟩, ⟨"Body", "body original"⟩],
         [("Body", "add more detail")]⟩).contexts.map Prod.fst) = ["Body"] := by
  exact ⟨rfl, rfl, rfl, rfl, rfl, rfl⟩

end Agento
